import Mathlib

/-!
# Verification of the stark-squeeze chunk-substitution codec and contract

Shallow embedding of the stark-squeeze repository:

* the first-level dot codec `binaryToDots` / `dotsToBinary`
  (src/src/compression/binaryToDots.ts, src/src/decompression/dotsToBinary.ts),
* the second-level dot encoders: the regex-substitution chain of the default
  `binaryToDots` variant and the single-pass `applySecondDict`
  (src/src/compression/v1/applySecondDict.ts),
* the `compress` pipeline wrapper (src/src/index.ts),
* the Cairo contract entry points `upload_file`, `delete_file`,
  `store_compression_mapping` (src/contracts/src/lib.cairo),
* the dictionary builder and the ASCII normalizer, modelled from the spec
  where the snapshot only contains their documentation, configuration and
  tests.

JavaScript strings are embedded as `String`/`List Char`, thrown exceptions as
`Except String`, Cairo bounded integers as `Nat` with explicit bound checks
(a failed bound check models the Cairo panic).
-/

namespace StarkSqueeze

/-- Modelled from the spec: the first-level dictionary `firstDict`
(src/constants/dictionaries.ts is absent from the snapshot; only its
importers and tests are present).  It maps each 5-bit chunk to a dot
pattern in which every maximal run of consecutive `1` bits becomes a run
of that many dots and runs are separated by single spaces — the unique
mapping consistent with every value pinned by the repository's tests
(src/src/compression/binaryToDots.test.ts: `11010 ↦ ".. ."`,
`00001 ↦ "."`, `00010 ↦ "."`, `11000 ↦ ".."`, `11001 ↦ ".. ."`,
`11101 ↦ "... ."`).  The entry order is chosen so that the last-entry-wins
reverse mapping built by `Object.fromEntries` in `dotsToBinary` agrees
with the inverse values pinned by the dotsToBinary tests
(`"." ↦ 01000`, `".." ↦ 01100`, `"..." ↦ 01110`). -/
def firstDict : List (String × String) :=
  [ ("00000", ""),
    ("00001", "."),
    ("00010", "."),
    ("00011", ".."),
    ("00100", "."),
    ("00101", ". ."),
    ("00110", ".."),
    ("00111", "..."),
    ("01001", ". ."),
    ("01010", ". ."),
    ("01011", ". .."),
    ("01101", ".. ."),
    ("01111", "...."),
    ("10000", "."),
    ("01000", "."),
    ("10001", ". ."),
    ("10010", ". ."),
    ("10011", ". .."),
    ("10100", ". ."),
    ("10101", ". . ."),
    ("10110", ". .."),
    ("10111", ". ..."),
    ("11000", ".."),
    ("01100", ".."),
    ("11001", ".. ."),
    ("11010", ".. ."),
    ("11011", ".. .."),
    ("11100", "..."),
    ("01110", "..."),
    ("11101", "... ."),
    ("11110", "...."),
    ("11111", ".....") ]

/-- A character is a binary digit, as tested by the regex `/^[01]*$/` in
`binaryToDots`. -/
def isBinaryChar (c : Char) : Bool := c = '0' || c = '1'

/-- The validation `/^[01]*$/.test(binaryStr)` of `binaryToDots`. -/
def binaryValid (s : String) : Bool := s.data.all isBinaryChar

/-- `binaryStr.padEnd(binaryStr.length + paddingLength, '0')` with
`paddingLength = (5 - (binaryStr.length % 5)) % 5`: pad the binary string
with trailing `'0'`s to a multiple of 5. -/
def padRight5 (s : String) : String :=
  s ++ String.mk (List.replicate ((5 - s.length % 5) % 5) '0')

/-- `paddedBinaryStr.match(/.{1,5}/g) || []`: split into chunks of (at
most) 5 characters; the empty string yields no chunks. -/
def chunk5 : List Char → List (List Char)
  | [] => []
  | a :: b :: c :: d :: e :: rest => [a, b, c, d, e] :: chunk5 rest
  | l => [l]

/-- `binaryToDots` (src/src/compression/binaryToDots.ts): validates that
the input is binary, pads to a multiple of 5, splits into 5-bit chunks,
maps each chunk through the dictionary — `firstDict[chunk] || ''` turns a
missing entry into the empty string — and joins the mapped patterns with
single spaces.  The dictionary is a parameter so that the claims that
quantify over dictionaries can be stated; the source always passes
`firstDict`. -/
def binaryToDots (dict : List (String × String)) (s : String) :
    Except String String :=
  if binaryValid s then
    Except.ok (String.intercalate " "
      ((chunk5 (padRight5 s).data).map
        (fun c => ((dict.lookup (String.mk c)).getD ""))))
  else
    Except.error "Input must be a binary string."

/-- `binaryToDots` as called by the repository, with its imported
`firstDict`. -/
def binaryToDotsF (s : String) : Except String String :=
  binaryToDots firstDict s

/-- `Object.fromEntries(Object.entries(firstDict).map(([k,v]) => [v,k]))`:
the value-to-key map of `firstDict`.  `Object.fromEntries` keeps the last
entry for a duplicated key, so the swapped list is reversed and looked up
first-match. -/
def reverseDict : List (String × String) :=
  (firstDict.map Prod.swap).reverse

/-- `.replace(/0+$/, '')`: strip all trailing `'0'` characters. -/
def stripTrailing0 (s : String) : String :=
  String.mk ((s.data.reverse.dropWhile (fun c => c = '0')).reverse)

/-- `dotsStr.split(' ')`: JavaScript single-character split — the string
is cut at every space, empty fields included, and the empty string yields
one empty field. -/
def splitOnSpace : List Char → List (List Char)
  | [] => [[]]
  | c :: rest =>
    match splitOnSpace rest with
    | [] => [[c]]
    | h :: t => if c = ' ' then [] :: h :: t else (c :: h) :: t

/-- The `chunks.map(...)` body of `dotsToBinary`: look every token up in
the reverse dictionary, throwing `Unknown pattern` at the first token that
is not a value of `firstDict`. -/
def mapLookup : List String → Except String (List String)
  | [] => Except.ok []
  | chunk :: rest =>
    match reverseDict.lookup chunk with
    | some b => (mapLookup rest).map (fun bs => b :: bs)
    | none => Except.error ("Unknown pattern: " ++ chunk)

/-- `dotsToBinary` (src/src/decompression/dotsToBinary.ts): split the dot
string on single spaces, map every token through the reverse of
`firstDict` — throwing `Unknown pattern` on a token that is not a value of
`firstDict` — join the 5-bit chunks and strip all trailing zeros. -/
def dotsToBinary (s : String) : Except String String :=
  match mapLookup ((splitOnSpace s.data).map String.mk) with
  | Except.ok binaryChunks => Except.ok (stripTrailing0 (String.join binaryChunks))
  | Except.error e => Except.error e

/-! ## Second-level dot encoders (claim C4)

The default-export `binaryToDots` variant applies a chain of global regex
substitutions; `applySecondDict` walks the string once, trying the
patterns of `secondDict` from longest to shortest at each position.  The
`secondDict` constants file is absent from the snapshot; the pattern table
`'.....'↦'!', '....'↦'#', '...'↦'$', '..'↦'%', '. .'↦'&', '.'↦'*'` is the
one listed by the regex chain itself and pinned by
src/src/compression/applySecondDict.test.ts (`'.....'↦'!'`, `'....'↦'#'`,
`'. .'↦'&'`, `'...'↦'$'`). -/

/-- `.replace(/\.\.\.\.\./g, '!')`: global, left-to-right, non-overlapping
replacement of five consecutive dots. -/
def replaceDots5 : List Char → List Char
  | '.' :: '.' :: '.' :: '.' :: '.' :: rest => '!' :: replaceDots5 rest
  | c :: rest => c :: replaceDots5 rest
  | [] => []

/-- `.replace(/\.\.\.\./g, '#')`. -/
def replaceDots4 : List Char → List Char
  | '.' :: '.' :: '.' :: '.' :: rest => '#' :: replaceDots4 rest
  | c :: rest => c :: replaceDots4 rest
  | [] => []

/-- `.replace(/\.\.\./g, '$')`. -/
def replaceDots3 : List Char → List Char
  | '.' :: '.' :: '.' :: rest => '$' :: replaceDots3 rest
  | c :: rest => c :: replaceDots3 rest
  | [] => []

/-- `.replace(/\.\./g, '%')`. -/
def replaceDots2 : List Char → List Char
  | '.' :: '.' :: rest => '%' :: replaceDots2 rest
  | c :: rest => c :: replaceDots2 rest
  | [] => []

/-- `.replace(/\. \./g, '&')`. -/
def replaceDotSpaceDot : List Char → List Char
  | '.' :: ' ' :: '.' :: rest => '&' :: replaceDotSpaceDot rest
  | c :: rest => c :: replaceDotSpaceDot rest
  | [] => []

/-- `.replace(/\./g, '*')`. -/
def replaceDots1 : List Char → List Char
  | '.' :: rest => '*' :: replaceDots1 rest
  | c :: rest => c :: replaceDots1 rest
  | [] => []

/-- The second-step encoding of the default-export `binaryToDots`: the six
global substitutions applied in the fixed source order `'.....'`,
`'....'`, `'...'`, `'..'`, `'. .'`, `'.'`. -/
def regexChain (s : List Char) : List Char :=
  replaceDots1 (replaceDotSpaceDot (replaceDots2 (replaceDots3
    (replaceDots4 (replaceDots5 s)))))

/-- `applySecondDict` (src/src/compression/v1/applySecondDict.ts): one
pass over the string; at each position the patterns of `secondDict` are
tried sorted by descending length (`'.....'`, `'....'`, `'...'`, `'. .'`,
`'..'`, `'.'` — the stable sort keeps `'...'` before the equally long
`'. .'`, and the two can never match at the same position); the first
match is emitted and skipped, and a position matching no pattern is copied
unchanged. -/
def applySecondDict : List Char → List Char
  | '.' :: '.' :: '.' :: '.' :: '.' :: rest => '!' :: applySecondDict rest
  | '.' :: '.' :: '.' :: '.' :: rest => '#' :: applySecondDict rest
  | '.' :: '.' :: '.' :: rest => '$' :: applySecondDict rest
  | '.' :: ' ' :: '.' :: rest => '&' :: applySecondDict rest
  | '.' :: '.' :: rest => '%' :: applySecondDict rest
  | '.' :: rest => '*' :: applySecondDict rest
  | c :: rest => c :: applySecondDict rest
  | [] => []

/-- `applySecondDict` on `String`, as called from `compress`. -/
def applySecondDictS (s : String) : String :=
  String.mk (applySecondDict s.data)

/-- The encoding both second-level encoders give to a short run of `m < 5`
dots: nothing, `*`, `%`, `$` or `#`. -/
def tailSym : Nat → List Char
  | 0 => []
  | 1 => ['*']
  | 2 => ['%']
  | 3 => ['$']
  | _ => ['#']

/-! ## The compress pipeline (claim C7) -/

/-- `compress` (src/src/index.ts): reads the input file as a binary
string, applies `binaryToDots`, `applySecondDict` and Brotli compression,
and writes the output file — all inside a `try` whose `catch` logs
`Error in compression pipeline: …` with `console.error` and falls
through, so the `async` function resolves normally.  The file read, the
Brotli compressor and the file write are external effects and are passed
in as their results; the first component of the result is what the caller
of `compress` observes (the resolved value or a raised error), the second
is the `console.error` log. -/
def compress (readResult : Except String String)
    (brotli : String → Except String (List Nat))
    (save : List Nat → Except String Unit) :
    Except String Unit × List String :=
  match (readResult.bind fun binaryString =>
        (binaryToDotsF binaryString).bind fun dotsString =>
        (brotli (applySecondDictS dotsString)).bind fun compressedData =>
        save compressedData) with
  | Except.ok _ => (Except.ok (), [])
  | Except.error e => (Except.ok (), ["Error in compression pipeline: " ++ e])

/-! ## The Starksqueeze Cairo contract (claims C2, C9, C10)

src/contracts/src/lib.cairo.  Field elements and addresses are embedded
as `Nat`; the storage maps are total functions with the Starknet
all-zeroes default; Cairo `u32`/`u8` arithmetic panics are
`Except.error`. -/

inductive Visibility
  | Public
  | Private
  | Shared
deriving DecidableEq

/-- The `FileMetadata` storage struct of the contract. -/
structure FileMetadata where
  uri : Nat
  file_format : Nat
  owner : Nat
  visibility : Visibility
  description : Nat
  category : Nat
  compressed_by : Nat
  original_size : Nat
  final_size : Nat
  chunk_size : Nat
deriving DecidableEq

/-- The contract's storage. -/
structure ContractState where
  files : Nat × Nat → FileMetadata
  user_file_count : Nat → Nat
  user_file_by_index : Nat × Nat → Nat
  file_shares : Nat × Nat × Nat → Bool
  shared_with_user_count : Nat → Nat
  shared_with_user_by_index : Nat × Nat → Nat × Nat
  admin : Nat
  is_admin_role : Nat → Bool

/-- The events the embedded entry points emit. -/
inductive ContractEvent
  | FileUploaded (uri owner : Nat) (visibility : Visibility)
  | FileDeleted (uri owner : Nat)
  | CompressionMappingStored (uri file_format compressed_by original_size
      final_size : Nat)
deriving DecidableEq

/-- `file_exists`: a file exists iff its stored `uri` is non-zero. -/
def file_exists (s : ContractState) (owner : Nat) (file_hash : Nat) : Bool :=
  (s.files (owner, file_hash)).uri ≠ 0

/-- The `compression_percent` computation of `upload_file`:
`((original_size - compressed_size) * 100 / original_size).try_into().unwrap()`
on Cairo `u32` values, which panics on subtraction underflow
(`compressed_size > original_size`) and on multiplication overflow; the
division is Cairo integer (floor) division, and the final `u8` conversion
always succeeds because the quotient is at most 100. -/
def uploadCompressedBy (original_size compressed_size : Nat) :
    Except String Nat :=
  if original_size > 0 then
    if compressed_size > original_size then
      Except.error "u32_sub Overflow"
    else if (original_size - compressed_size) * 100 ≥ 2 ^ 32 then
      Except.error "u32_mul Overflow"
    else
      Except.ok ((original_size - compressed_size) * 100 / original_size)
  else
    Except.ok 0

/-- The `compressed_by` formula of the specification (spec.md §6): value
`round((1 - compressed_size/original_size) * 100)` clamped to `[0,100]`,
with `original_size == 0` defining the result as 0.  Rounding of the
rational `(o-c)*100/o` is round-half-up, `⌊((o-c)*200 + o) / (2*o)⌋`; the
clamp only binds below, at `compressed_size ≥ original_size`. -/
def specCompressedBy (original_size compressed_size : Nat) : Nat :=
  if original_size = 0 then 0
  else if original_size ≤ compressed_size then 0
  else ((original_size - compressed_size) * 100 * 2 + original_size) /
    (2 * original_size)

/-- `upload_file`: rejects a duplicate hash, computes `compressed_by`,
stores the metadata under `(caller, file_hash)`, appends the hash to the
caller's file list and emits `FileUploadedEvent`. -/
def upload_file (s : ContractState) (caller file_hash filename
    original_size compressed_size file_format ipfs_cid : Nat) :
    Except String (ContractState × List ContractEvent) :=
  if file_exists s caller file_hash then
    Except.error "File already exists"
  else
    (uploadCompressedBy original_size compressed_size).bind fun
      compression_percent =>
    let file_data : FileMetadata :=
      { uri := file_hash
        file_format := file_format
        owner := caller
        visibility := Visibility.Public
        description := 0
        category := 0
        compressed_by := compression_percent
        original_size := original_size
        final_size := compressed_size
        chunk_size := 8 }
    let current_count := s.user_file_count caller
    Except.ok
      ({ s with
          files := fun k =>
            if k = (caller, file_hash) then file_data else s.files k
          user_file_by_index := fun k =>
            if k = (caller, current_count) then file_hash
            else s.user_file_by_index k
          user_file_count := fun u =>
            if u = caller then current_count + 1 else s.user_file_count u },
        [ContractEvent.FileUploaded file_hash caller Visibility.Public])

/-- The all-zero `FileMetadata` that `delete_file` writes back (its
`owner` field is set to the caller and its visibility to `Private`). -/
def emptyFile (caller : Nat) : FileMetadata :=
  { uri := 0
    file_format := 0
    owner := caller
    visibility := Visibility.Private
    description := 0
    category := 0
    compressed_by := 0
    original_size := 0
    final_size := 0
    chunk_size := 0 }

/-- `delete_file`: asserts the file exists, overwrites its metadata entry
with the empty metadata and emits `FileDeletedEvent`; the caller's file
count and index list are not touched. -/
def delete_file (s : ContractState) (caller file_hash : Nat) :
    Except String (ContractState × List ContractEvent) :=
  if file_exists s caller file_hash then
    Except.ok
      ({ s with
          files := fun k =>
            if k = (caller, file_hash) then emptyFile caller else s.files k },
        [ContractEvent.FileDeleted file_hash caller])
  else
    Except.error "File not found"

/-- `store_compression_mapping`: asserts
`compressed_by <= 100, 'Invalid compression percentage'` and then only
emits `CompressionMappingStoredEvent`; no storage is written. -/
def store_compression_mapping (s : ContractState) (uri file_format
    compressed_by original_size final_size chunk_size : Nat)
    (chunk_mappings : List Nat) (chunk_values : List Nat)
    (byte_mappings : List Nat) (byte_values : List Nat)
    (reconstruction_steps : List Nat) (metadata : List Nat) :
    Except String (ContractState × List ContractEvent) :=
  if compressed_by ≤ 100 then
    Except.ok (s,
      [ContractEvent.CompressionMappingStored uri file_format compressed_by
        original_size final_size])
  else
    Except.error "Invalid compression percentage"

/-- A contract state with all storage at the Starknet zero default. -/
def initialState : ContractState :=
  { files := fun _ => emptyFile 0
    user_file_count := fun _ => 0
    user_file_by_index := fun _ => 0
    file_shares := fun _ => false
    shared_with_user_count := fun _ => 0
    shared_with_user_by_index := fun _ => (0, 0)
    admin := 0
    is_admin_role := fun _ => false }

/-! ## ASCII normalizer (claim C5) -/

/-- Modelled from the spec: the always-on ASCII conversion (its Rust
implementation is absent from the snapshot; only its documentation and
configuration remain).  Per starksqueeze.config.json
`file_processing.ascii_conversion`, bytes in the printable range
`[32,126]` are kept, control characters are converted to space (32) and
extended/non-printable bytes above the range to period (46). -/
def toAsciiByte (b : Nat) : Nat :=
  if 32 ≤ b ∧ b ≤ 126 then b
  else if b < 32 then 32
  else 46

/-- `to_ascii` over a byte buffer: the byte-value map applied pointwise. -/
def toAscii (B : List Nat) : List Nat :=
  B.map toAsciiByte

/-! ## Dictionary builder (claim C6) -/

/-- Modelled from the spec: the Dictionary Builder (its Rust
implementation is absent from the snapshot; only its documentation,
configuration and README remain).  Per spec §4.1 it iterates the chunks in
order, assigns the next unused code starting at 0 on the first occurrence
of a distinct chunk value, and fails with `DictionaryOverflow` when a
256th distinct chunk would need assignment
(starksqueeze.config.json `compression.max_unique_chunks = 255`). -/
def buildDictAux : List (List Nat) → List (List Nat × Nat) →
    Except String (List (List Nat × Nat))
  | [], acc => Except.ok acc
  | c :: rest, acc =>
    if c ∈ acc.map Prod.fst then buildDictAux rest acc
    else if acc.length ≥ 255 then Except.error "DictionaryOverflow"
    else buildDictAux rest (acc ++ [(c, acc.length)])

/-- `build(chunks)`: the dictionary built from an empty accumulator. -/
def build (chunks : List (List Nat)) : Except String (List (List Nat × Nat)) :=
  buildDictAux chunks []

/-! ## Theorems -/

/-- An association-list lookup misses when no entry carries the key. -/
theorem lookup_eq_none_of_keys {l : List (String × String)} {a : String}
    (h : ∀ p ∈ l, p.1 ≠ a) : l.lookup a = none := by
  induction l with
  | nil => rfl
  | cons p rest ih =>
    obtain ⟨k, v⟩ := p
    have hk : (a == k) = false :=
      beq_eq_false_iff_ne.mpr (Ne.symm (h (k, v) (by simp)))
    simp only [List.lookup, hk]
    exact ih fun q hq => h q (List.mem_cons_of_mem _ hq)

/-- A token that is no value of `firstDict` has no reverse-dictionary
entry. -/
theorem lookup_reverseDict_none {t : String}
    (habs : ∀ p ∈ firstDict, p.2 ≠ t) : reverseDict.lookup t = none := by
  apply lookup_eq_none_of_keys
  intro p hp
  rw [reverseDict, List.mem_reverse, List.mem_map] at hp
  obtain ⟨q, hq, rfl⟩ := hp
  exact habs q hq

/-- `mapLookup` propagates the failure of any of its tokens. -/
theorem mapLookup_error {l : List String} {t : String} (ht : t ∈ l)
    (hnone : reverseDict.lookup t = none) :
    ∃ e, mapLookup l = Except.error e := by
  induction l with
  | nil => cases ht
  | cons c rest ih =>
    cases hcl : reverseDict.lookup c with
    | none =>
      exact ⟨"Unknown pattern: " ++ c, by simp [mapLookup, hcl]⟩
    | some b =>
      rcases List.mem_cons.mp ht with h | h
      · subst h; rw [hcl] at hnone; cases hnone
      · obtain ⟨e, he⟩ := ih h
        exact ⟨e, by simp [mapLookup, hcl, he, Except.map]⟩

/-- C1.  The codec does not round-trip: the 5-bit binary string `11010`
(no chunk padding involved) encodes to `.. .`, but decoding `.. .` splits
the single two-run pattern at its interior space into the two tokens `..`
and `.`, reverse-maps them to `01100` and `01000` and strips the data's
own trailing zeros, returning `0110001` — not `11010`, with or without
trimming to the original length 5. -/
theorem dots_roundTrip_fails_at_11010 :
    binaryToDotsF "11010" = Except.ok ".. ." ∧
    dotsToBinary ".. ." = Except.ok "0110001" ∧
    ("0110001" : String) ≠ "11010" ∧
    ("0110001" : String).take 5 ≠ "11010" :=
  ⟨rfl, rfl, by decide, by decide⟩

/-- C3, counterexample.  A chunk absent from the dictionary does not make
`binaryToDots` signal an error: with the empty dictionary, the chunk
`00000` has no entry, yet encoding returns `Except.ok ""` — the
`firstDict[chunk] || ''` fallback silently encodes the chunk as the empty
string. -/
theorem binaryToDots_swallows_unknown_chunk :
    (∀ p ∈ ([] : List (String × String)), p.1 ≠ "00000") ∧
    binaryToDots [] "00000" = Except.ok "" :=
  ⟨by simp, rfl⟩

/-- C3, amended.  `binaryToDots` never fails on a valid binary string,
dictionary misses included: the only error it can signal is the
non-binary-input validation error. -/
theorem binaryToDots_ok_of_valid (dict : List (String × String))
    (s : String) (h : binaryValid s = true) :
    ∃ out, binaryToDots dict s = Except.ok out := by
  unfold binaryToDots
  simp only [h, if_true]
  exact ⟨_, rfl⟩

/-- Witness for `binaryToDots_ok_of_valid` at the empty dictionary and
the input `00000`. -/
theorem binaryToDots_ok_of_valid_witness :
    binaryValid "00000" = true ∧
    ∃ out, binaryToDots [] "00000" = Except.ok out :=
  ⟨by decide, binaryToDots_ok_of_valid [] "00000" (by decide)⟩

/-- C8.  Decoding fails whenever some space-separated token of the input
is not a value of `firstDict`: `dotsToBinary` returns an `Unknown
pattern` error and no output. -/
theorem dotsToBinary_unknown_pattern_errors (s t : String)
    (ht : t ∈ (splitOnSpace s.data).map String.mk)
    (habs : ∀ p ∈ firstDict, p.2 ≠ t) :
    ∃ e, dotsToBinary s = Except.error e := by
  obtain ⟨e, he⟩ := mapLookup_error ht (lookup_reverseDict_none habs)
  exact ⟨e, by simp [dotsToBinary, he]⟩

/-- Witness for `dotsToBinary_unknown_pattern_errors` at the input `.x`,
whose single token `.x` is not a value of `firstDict`. -/
theorem dotsToBinary_unknown_pattern_errors_witness :
    (".x" ∈ (splitOnSpace ".x".data).map String.mk) ∧
    (∀ p ∈ firstDict, p.2 ≠ ".x") ∧
    ∃ e, dotsToBinary ".x" = Except.error e :=
  ⟨by decide, by decide,
    dotsToBinary_unknown_pattern_errors ".x" ".x" (by decide) (by decide)⟩

/-- C2, counterexample.  The contract's `compressed_by` is not
`round((1 - compressed_size/original_size) * 100)` clamped to `[0,100]`:
uploading a file with `original_size = 3, compressed_size = 1` stores 66
(Cairo floor division) where the claimed rounding gives 67, and a call
with `compressed_size = 2 > original_size = 1` panics on `u32`
subtraction overflow where the claimed clamp would store 0. -/
theorem upload_compressed_by_counterexample :
    (upload_file initialState 7 123 77 3 1 88 99).map
        (fun r => (r.1.files (7, 123)).compressed_by) = Except.ok 66 ∧
    specCompressedBy 3 1 = 67 ∧
    upload_file initialState 7 123 77 1 2 88 99 =
      Except.error "u32_sub Overflow" ∧
    specCompressedBy 1 2 = 0 :=
  ⟨rfl, rfl, rfl, rfl⟩

/-- C2, amended.  For a fresh file hash with
`compressed_size ≤ original_size` and no `u32` multiplication overflow,
`upload_file` stores
`compressed_by = ⌊(original_size - compressed_size) * 100 / original_size⌋`
(0 when `original_size = 0`), a value that always lies in `[0,100]`
without any explicit rounding or clamping. -/
theorem upload_file_stores_floor_percent (s : ContractState)
    (caller file_hash filename original_size compressed_size file_format
      ipfs_cid : Nat)
    (hex : file_exists s caller file_hash = false)
    (hle : compressed_size ≤ original_size)
    (hmul : (original_size - compressed_size) * 100 < 2 ^ 32) :
    ∃ s' ev, upload_file s caller file_hash filename original_size
        compressed_size file_format ipfs_cid = Except.ok (s', ev) ∧
      (s'.files (caller, file_hash)).compressed_by =
        (if original_size = 0 then 0
         else (original_size - compressed_size) * 100 / original_size) ∧
      (s'.files (caller, file_hash)).compressed_by ≤ 100 := by
  have hcb : uploadCompressedBy original_size compressed_size =
      Except.ok (if original_size = 0 then 0
        else (original_size - compressed_size) * 100 / original_size) := by
    unfold uploadCompressedBy
    rcases Nat.eq_zero_or_pos original_size with h0 | hpos
    · simp [h0]
    · rw [if_pos hpos, if_neg (by omega), if_neg (by omega), if_neg (by omega)]
  have hbound : (if original_size = 0 then 0
      else (original_size - compressed_size) * 100 / original_size) ≤ 100 := by
    rcases Nat.eq_zero_or_pos original_size with h0 | hpos
    · simp [h0]
    · rw [if_neg (by omega)]
      calc (original_size - compressed_size) * 100 / original_size
          ≤ original_size * 100 / original_size :=
            Nat.div_le_div_right (Nat.mul_le_mul_right _ (by omega))
        _ = 100 := by rw [Nat.mul_div_cancel_left _ hpos]
  have hstep : upload_file s caller file_hash filename original_size
      compressed_size file_format ipfs_cid = Except.ok
      ({ s with
          files := fun k =>
            if k = (caller, file_hash) then
              { uri := file_hash
                file_format := file_format
                owner := caller
                visibility := Visibility.Public
                description := 0
                category := 0
                compressed_by :=
                  if original_size = 0 then 0
                  else (original_size - compressed_size) * 100 / original_size
                original_size := original_size
                final_size := compressed_size
                chunk_size := 8 }
            else s.files k
          user_file_by_index := fun k =>
            if k = (caller, s.user_file_count caller) then file_hash
            else s.user_file_by_index k
          user_file_count := fun u =>
            if u = caller then s.user_file_count caller + 1
            else s.user_file_count u },
        [ContractEvent.FileUploaded file_hash caller Visibility.Public]) := by
    unfold upload_file
    rw [hex, hcb]
    simp [Except.bind]
  refine ⟨_, _, hstep, ?_, ?_⟩
  · simp
  · simpa using hbound

/-- Witness for `upload_file_stores_floor_percent`: uploading to the
empty state with sizes 1000/500 (the contract test's 50% case). -/
theorem upload_file_stores_floor_percent_witness :
    file_exists initialState 7 123 = false ∧
    ∃ s' ev, upload_file initialState 7 123 77 1000 500 88 99 =
        Except.ok (s', ev) ∧
      (s'.files (7, 123)).compressed_by =
        (if (1000 : Nat) = 0 then 0 else (1000 - 500) * 100 / 1000) ∧
      (s'.files (7, 123)).compressed_by ≤ 100 :=
  ⟨rfl, upload_file_stores_floor_percent initialState 7 123 77 1000 500 88 99
    rfl (by decide) (by decide)⟩

/-- C9.  Frame effect of `delete_file`: on an existing file it succeeds,
overwrites exactly that file's metadata entry with the zeroed record (so
`file_exists` turns false), and leaves every user's file count, the whole
index list, and every other metadata entry untouched — the reported count
never decreases. -/
theorem delete_file_frame (s : ContractState) (caller file_hash : Nat)
    (h : file_exists s caller file_hash = true) :
    ∃ s' ev, delete_file s caller file_hash = Except.ok (s', ev) ∧
      file_exists s' caller file_hash = false ∧
      s'.user_file_count = s.user_file_count ∧
      s'.user_file_by_index = s.user_file_by_index ∧
      s'.shared_with_user_count = s.shared_with_user_count ∧
      s'.file_shares = s.file_shares ∧
      (∀ k, k ≠ (caller, file_hash) → s'.files k = s.files k) := by
  have hstep : delete_file s caller file_hash = Except.ok
      ({ s with
          files := fun k =>
            if k = (caller, file_hash) then emptyFile caller
            else s.files k },
        [ContractEvent.FileDeleted file_hash caller]) := by
    unfold delete_file
    rw [h]
    simp
  refine ⟨_, _, hstep, ?_, rfl, rfl, rfl, rfl, ?_⟩
  · simp [file_exists, emptyFile]
  · intro k hk
    simp [hk]

/-- A state holding one uploaded file, for the `delete_file` witness. -/
def sampleStateWithFile : ContractState :=
  { initialState with
      files := fun k =>
        if k = (7, 123) then
          { uri := 123
            file_format := 1
            owner := 7
            visibility := Visibility.Public
            description := 0
            category := 0
            compressed_by := 50
            original_size := 10
            final_size := 5
            chunk_size := 8 }
        else emptyFile 0
      user_file_count := fun u => if u = 7 then 1 else 0
      user_file_by_index := fun k => if k = (7, 0) then 123 else 0 }

/-- Witness for `delete_file_frame` at a concrete one-file state. -/
theorem delete_file_frame_witness :
    file_exists sampleStateWithFile 7 123 = true ∧
    ∃ s' ev, delete_file sampleStateWithFile 7 123 = Except.ok (s', ev) ∧
      file_exists s' 7 123 = false ∧
      s'.user_file_count = sampleStateWithFile.user_file_count ∧
      s'.user_file_by_index = sampleStateWithFile.user_file_by_index ∧
      s'.shared_with_user_count = sampleStateWithFile.shared_with_user_count ∧
      s'.file_shares = sampleStateWithFile.file_shares ∧
      (∀ k, k ≠ ((7 : Nat), (123 : Nat)) →
        s'.files k = sampleStateWithFile.files k) :=
  ⟨rfl, delete_file_frame sampleStateWithFile 7 123 rfl⟩

/-- C10.  `store_compression_mapping` persists nothing: with
`compressed_by ≤ 100` it returns the storage unchanged and emits exactly
one `CompressionMappingStoredEvent`; with `compressed_by > 100` it rejects
with `Invalid compression percentage` and likewise changes no state. -/
theorem store_compression_mapping_stateless (s : ContractState)
    (uri file_format compressed_by original_size final_size chunk_size : Nat)
    (chunk_mappings chunk_values byte_mappings byte_values
      reconstruction_steps metadata : List Nat) :
    (compressed_by ≤ 100 →
      store_compression_mapping s uri file_format compressed_by original_size
        final_size chunk_size chunk_mappings chunk_values byte_mappings
        byte_values reconstruction_steps metadata =
      Except.ok (s, [ContractEvent.CompressionMappingStored uri file_format
        compressed_by original_size final_size])) ∧
    (100 < compressed_by →
      store_compression_mapping s uri file_format compressed_by original_size
        final_size chunk_size chunk_mappings chunk_values byte_mappings
        byte_values reconstruction_steps metadata =
      Except.error "Invalid compression percentage") := by
  constructor
  · intro h
    unfold store_compression_mapping
    rw [if_pos h]
  · intro h
    unfold store_compression_mapping
    rw [if_neg (by omega)]

/-- Witness for `store_compression_mapping_stateless`: both branches at
concrete inputs (percentage 80 accepted, 101 rejected), on the empty
state. -/
theorem store_compression_mapping_stateless_witness :
    store_compression_mapping initialState 1 2 80 1000 200 8 [] [] [] [] [] []
      = Except.ok (initialState,
          [ContractEvent.CompressionMappingStored 1 2 80 1000 200]) ∧
    store_compression_mapping initialState 1 2 101 1000 200 8 [] [] [] [] [] []
      = Except.error "Invalid compression percentage" :=
  ⟨(store_compression_mapping_stateless initialState 1 2 80 1000 200 8
      [] [] [] [] [] []).1 (by decide),
   (store_compression_mapping_stateless initialState 1 2 101 1000 200 8
      [] [] [] [] [] []).2 (by decide)⟩

/-- C5, counterexample.  The ASCII conversion is not reversible: the
byte-value map sends both 0 and 1 to 32 (space), so it is not injective
on the byte values present in the buffer `[0, 1]`, and no `from_ascii`
can reconstruct every buffer from its conversion. -/
theorem toAscii_not_reversible :
    toAscii [0] = toAscii [1] ∧ ([0] : List Nat) ≠ [1] ∧
    ¬ ∃ from_ascii : List Nat → List Nat,
        ∀ B : List Nat, from_ascii (toAscii B) = B := by
  refine ⟨rfl, by decide, ?_⟩
  rintro ⟨f, hf⟩
  have h0 : f [32] = [0] := hf [0]
  have h1 : f [32] = [1] := hf [1]
  rw [h0] at h1
  cases h1

/-- C5, amended.  The conversion is the identity on buffers of printable
bytes (values in `[32,126]`), so exactly those buffers survive the
normalization unchanged; buffers containing control or extended bytes are
collapsed irreversibly. -/
theorem toAscii_id_on_printable (B : List Nat)
    (h : ∀ b ∈ B, 32 ≤ b ∧ b ≤ 126) : toAscii B = B := by
  induction B with
  | nil => rfl
  | cons b rest ih =>
    have hb := h b (by simp)
    have : toAsciiByte b = b := by
      unfold toAsciiByte
      rw [if_pos hb]
    simp only [toAscii, List.map_cons, this]
    have := ih fun x hx => h x (List.mem_cons_of_mem _ hx)
    simpa [toAscii] using this

/-- Witness for `toAscii_id_on_printable` at the printable buffer
`"Hi"` (`[72, 105]`). -/
theorem toAscii_id_on_printable_witness :
    (∀ b ∈ ([72, 105] : List Nat), 32 ≤ b ∧ b ≤ 126) ∧
    toAscii [72, 105] = [72, 105] :=
  ⟨by decide, toAscii_id_on_printable [72, 105] (by decide)⟩

/-- C7.  `compress` never surfaces a pipeline error to its caller: the
`catch` block only logs, so the promise resolves normally for every
outcome of the read, encode, Brotli and write stages; in particular a
failing file read produces a normal completion plus a console log, not a
raised error. -/
theorem compress_swallows_errors :
    (∀ (readResult : Except String String)
        (brotli : String → Except String (List Nat))
        (save : List Nat → Except String Unit),
      (compress readResult brotli save).1 = Except.ok ()) ∧
    (∀ (e : String) (brotli : String → Except String (List Nat))
        (save : List Nat → Except String Unit),
      compress (Except.error e) brotli save =
        (Except.ok (), ["Error in compression pipeline: " ++ e])) := by
  constructor
  · intro readResult brotli save
    unfold compress
    cases hx : (readResult.bind fun binaryString =>
        (binaryToDotsF binaryString).bind fun dotsString =>
        (brotli (applySecondDictS dotsString)).bind fun compressedData =>
        save compressedData) with
    | ok u => rfl
    | error e => rfl
  · intro e brotli save
    rfl

/-- What `buildDictAux` does in general: with `acc` below the 255-entry
cap, it succeeds exactly when the entries already assigned plus the
distinct chunk values still missing from `acc` fit in 255 codes, and
reports `DictionaryOverflow` otherwise. -/
theorem buildDictAux_spec (chunks : List (List Nat)) :
    ∀ acc : List (List Nat × Nat), acc.length ≤ 255 →
    (acc.length +
        (chunks.toFinset \ (acc.map Prod.fst).toFinset).card ≤ 255 →
      ∃ d, buildDictAux chunks acc = Except.ok d) ∧
    (255 < acc.length +
        (chunks.toFinset \ (acc.map Prod.fst).toFinset).card →
      buildDictAux chunks acc = Except.error "DictionaryOverflow") := by
  induction chunks with
  | nil =>
    intro acc hacc
    refine ⟨fun _ => ⟨acc, rfl⟩, fun hlt => ?_⟩
    simp only [List.toFinset_nil, Finset.empty_sdiff, Finset.card_empty] at hlt
    omega
  | cons c rest ih =>
    intro acc hacc
    by_cases hmem : c ∈ acc.map Prod.fst
    · have hsd : (c :: rest).toFinset \ (acc.map Prod.fst).toFinset =
          rest.toFinset \ (acc.map Prod.fst).toFinset := by
        rw [List.toFinset_cons,
          Finset.insert_sdiff_of_mem _ (List.mem_toFinset.mpr hmem)]
      have hrec : buildDictAux (c :: rest) acc = buildDictAux rest acc := by
        simp only [buildDictAux, if_pos hmem]
      rw [hsd, hrec]
      exact ih acc hacc
    · have hcK : c ∉ (acc.map Prod.fst).toFinset := by
        simpa using hmem
      have hsd : (c :: rest).toFinset \ (acc.map Prod.fst).toFinset =
          insert c (rest.toFinset \ (acc.map Prod.fst).toFinset) := by
        rw [List.toFinset_cons, Finset.insert_sdiff_of_not_mem _ hcK]
      have hcard : (insert c
          (rest.toFinset \ (acc.map Prod.fst).toFinset)).card =
          ((rest.toFinset \ (acc.map Prod.fst).toFinset).erase c).card + 1 := by
        by_cases hc : c ∈ rest.toFinset \ (acc.map Prod.fst).toFinset
        · rw [Finset.card_insert_of_mem hc, Finset.card_erase_of_mem hc]
          have : 0 < (rest.toFinset \ (acc.map Prod.fst).toFinset).card :=
            Finset.card_pos.mpr ⟨c, hc⟩
          omega
        · rw [Finset.card_insert_of_not_mem hc, Finset.erase_eq_of_not_mem hc]
      by_cases hlen : acc.length ≥ 255
      · have herr : buildDictAux (c :: rest) acc =
            Except.error "DictionaryOverflow" := by
          simp only [buildDictAux, if_neg hmem, if_pos hlen]
        refine ⟨fun hle => ?_, fun _ => herr⟩
        rw [hsd, hcard] at hle
        omega
      · have hK' : (((acc ++ [(c, acc.length)]).map Prod.fst).toFinset) =
            insert c ((acc.map Prod.fst).toFinset) := by
          rw [List.map_append, List.toFinset_append]
          simp [Finset.union_comm, Finset.insert_eq]
        have hrec : buildDictAux (c :: rest) acc =
            buildDictAux rest (acc ++ [(c, acc.length)]) := by
          simp only [buildDictAux, if_neg hmem, if_neg hlen]
        have hacc' : (acc ++ [(c, acc.length)]).length ≤ 255 := by
          simp only [List.length_append, List.length_cons, List.length_nil]
          omega
        have ih' := ih (acc ++ [(c, acc.length)]) hacc'
        rw [hK', Finset.sdiff_insert] at ih'
        have hlenacc : (acc ++ [(c, acc.length)]).length = acc.length + 1 := by
          simp
        rw [hlenacc] at ih'
        rw [hsd, hrec, hcard]
        constructor
        · intro hle
          exact ih'.1 (by omega)
        · intro hlt
          exact ih'.2 (by omega)

/-- C6.  Overflow boundary of the dictionary builder: a chunk sequence
with exactly 255 distinct chunk values builds successfully, and one with
256 distinct values fails with `DictionaryOverflow` (it neither succeeds,
loops, nor drops entries). -/
theorem build_overflow_boundary (chunks : List (List Nat)) :
    (chunks.toFinset.card = 255 → ∃ d, build chunks = Except.ok d) ∧
    (chunks.toFinset.card = 256 →
      build chunks = Except.error "DictionaryOverflow") := by
  have h := buildDictAux_spec chunks [] (by simp)
  simp only [List.map_nil, List.toFinset_nil, Finset.sdiff_empty,
    List.length_nil, Nat.zero_add] at h
  exact ⟨fun hc => h.1 (by omega), fun hc => h.2 (by omega)⟩

/-- Witness for `build_overflow_boundary`: the 255 distinct singleton
chunks `[0] … [254]` build, and the 256 distinct chunks `[0] … [255]`
overflow. -/
theorem build_overflow_boundary_witness :
    (∃ d, build ((List.range 255).map fun n => [n]) = Except.ok d) ∧
    build ((List.range 256).map fun n => [n]) =
      Except.error "DictionaryOverflow" := by
  have hnodup : ∀ m : Nat, ((List.range m).map fun n => [n]).Nodup :=
    fun m => List.Nodup.map (fun a b h => by simpa using h) (List.nodup_range m)
  have hcard : ∀ m : Nat, ((List.range m).map fun n => [n]).toFinset.card = m := by
    intro m
    rw [List.toFinset_card_of_nodup (hnodup m), List.length_map,
      List.length_range]
  exact ⟨(build_overflow_boundary _).1 (hcard 255),
    (build_overflow_boundary _).2 (hcard 256)⟩

/-- C4, counterexample.  The regex chain and the single-pass
`applySecondDict` are different functions: on `". .."` the chain first
rewrites the trailing `".."` to `%` so the `". ."` rule no longer fires
(`"* %"`), while the single pass consumes `". ."` first (`"&*"`). -/
theorem secondEncoders_differ :
    regexChain ". ..".data = "* %".data ∧
    applySecondDict ". ..".data = "&*".data ∧
    regexChain ". ..".data ≠ applySecondDict ". ..".data :=
  ⟨rfl, rfl, by decide⟩

/-- `/\.{5}/g` on a run of dots: greedy disjoint groups of five become
`!`, the remainder `n % 5` dots survive. -/
theorem replaceDots5_replicate (n : Nat) :
    replaceDots5 (List.replicate n '.') =
    List.replicate (n / 5) '!' ++ List.replicate (n % 5) '.' := by
  induction n using Nat.strong_induction_on with
  | _ n ih =>
    by_cases h : 5 ≤ n
    · have h5 : List.replicate n '.' =
          List.replicate 5 '.' ++ List.replicate (n - 5) '.' := by
        rw [← List.replicate_add]
        congr 1
        omega
      rw [h5]
      have hstep : replaceDots5 (List.replicate 5 '.' ++
          List.replicate (n - 5) '.') =
          '!' :: replaceDots5 (List.replicate (n - 5) '.') := rfl
      rw [hstep, ih (n - 5) (by omega)]
      have hdiv : n / 5 = (n - 5) / 5 + 1 := by omega
      have hmod : n % 5 = (n - 5) % 5 := by omega
      rw [hdiv, hmod, List.replicate_succ, List.cons_append]
    · interval_cases n <;> rfl

/-- `replace(/\.\.\.\./g, …)` skips a leading run of `!`. -/
theorem replaceDots4_bangs (k : Nat) (t : List Char) :
    replaceDots4 (List.replicate k '!' ++ t) =
    List.replicate k '!' ++ replaceDots4 t := by
  induction k with
  | zero => rfl
  | succ k ih =>
    rw [List.replicate_succ, List.cons_append]
    have hstep : replaceDots4 ('!' :: (List.replicate k '!' ++ t)) =
        '!' :: replaceDots4 (List.replicate k '!' ++ t) := rfl
    rw [hstep, ih]
    rfl

/-- `replace(/\.\.\./g, …)` skips a leading run of `!`. -/
theorem replaceDots3_bangs (k : Nat) (t : List Char) :
    replaceDots3 (List.replicate k '!' ++ t) =
    List.replicate k '!' ++ replaceDots3 t := by
  induction k with
  | zero => rfl
  | succ k ih =>
    rw [List.replicate_succ, List.cons_append]
    have hstep : replaceDots3 ('!' :: (List.replicate k '!' ++ t)) =
        '!' :: replaceDots3 (List.replicate k '!' ++ t) := rfl
    rw [hstep, ih]
    rfl

/-- `replace(/\.\./g, …)` skips a leading run of `!`. -/
theorem replaceDots2_bangs (k : Nat) (t : List Char) :
    replaceDots2 (List.replicate k '!' ++ t) =
    List.replicate k '!' ++ replaceDots2 t := by
  induction k with
  | zero => rfl
  | succ k ih =>
    rw [List.replicate_succ, List.cons_append]
    have hstep : replaceDots2 ('!' :: (List.replicate k '!' ++ t)) =
        '!' :: replaceDots2 (List.replicate k '!' ++ t) := rfl
    rw [hstep, ih]
    rfl

/-- `replace(/\. \./g, …)` skips a leading run of `!`. -/
theorem replaceDotSpaceDot_bangs (k : Nat) (t : List Char) :
    replaceDotSpaceDot (List.replicate k '!' ++ t) =
    List.replicate k '!' ++ replaceDotSpaceDot t := by
  induction k with
  | zero => rfl
  | succ k ih =>
    rw [List.replicate_succ, List.cons_append]
    have hstep : replaceDotSpaceDot ('!' :: (List.replicate k '!' ++ t)) =
        '!' :: replaceDotSpaceDot (List.replicate k '!' ++ t) := rfl
    rw [hstep, ih]
    rfl

/-- `replace(/\./g, …)` skips a leading run of `!`. -/
theorem replaceDots1_bangs (k : Nat) (t : List Char) :
    replaceDots1 (List.replicate k '!' ++ t) =
    List.replicate k '!' ++ replaceDots1 t := by
  induction k with
  | zero => rfl
  | succ k ih =>
    rw [List.replicate_succ, List.cons_append]
    have hstep : replaceDots1 ('!' :: (List.replicate k '!' ++ t)) =
        '!' :: replaceDots1 (List.replicate k '!' ++ t) := rfl
    rw [hstep, ih]
    rfl

/-- The last five substitutions of the chain turn a short run of `m < 5`
dots into its single symbol. -/
theorem chainTail (m : Nat) (h : m < 5) :
    replaceDots1 (replaceDotSpaceDot (replaceDots2 (replaceDots3
      (replaceDots4 (List.replicate m '.'))))) = tailSym m := by
  interval_cases m <;> rfl

/-- The single pass on a run of dots: greedy groups of five become `!`,
the remainder its symbol. -/
theorem applySecondDict_replicate (n : Nat) :
    applySecondDict (List.replicate n '.') =
    List.replicate (n / 5) '!' ++ tailSym (n % 5) := by
  induction n using Nat.strong_induction_on with
  | _ n ih =>
    by_cases h : 5 ≤ n
    · have h5 : List.replicate n '.' =
          List.replicate 5 '.' ++ List.replicate (n - 5) '.' := by
        rw [← List.replicate_add]
        congr 1
        omega
      rw [h5]
      have hstep : applySecondDict (List.replicate 5 '.' ++
          List.replicate (n - 5) '.') =
          '!' :: applySecondDict (List.replicate (n - 5) '.') := rfl
      rw [hstep, ih (n - 5) (by omega)]
      have hdiv : n / 5 = (n - 5) / 5 + 1 := by omega
      have hmod : n % 5 = (n - 5) % 5 := by omega
      rw [hdiv, hmod, List.replicate_succ, List.cons_append]
    · interval_cases n <;> rfl

/-- C4, amended.  On every uninterrupted run of dots the two second-level
encoders agree (both emit the greedy decomposition `!^⌊n/5⌋` followed by
the symbol of the remainder); on dot patterns containing spaces they can
differ, because the chain applies the `..` rule before `. .` while the
single pass tries `. .` first. -/
theorem secondEncoders_agree_on_dot_runs (n : Nat) :
    regexChain (List.replicate n '.') =
    applySecondDict (List.replicate n '.') := by
  unfold regexChain
  rw [replaceDots5_replicate, replaceDots4_bangs, replaceDots3_bangs,
    replaceDots2_bangs, replaceDotSpaceDot_bangs, replaceDots1_bangs,
    chainTail (n % 5) (Nat.mod_lt _ (by omega)),
    applySecondDict_replicate]

end StarkSqueeze
